import Mathlib

/-!
Shallow embedding of `gensim/models/nmf.py` (online non-negative matrix
factorization) and verification of the specification's claims about it.

Modelling conventions:
* numpy float arrays become total functions `Fin m → Fin n → ℚ`;
* the model's `v_max` slot (a Python value that may be `None`, `np.inf`,
  or a float) becomes the inductive `VMax`;
* square roots (`np.sqrt`, `np.linalg.norm`) are parametrised by an
  oracle `sqrtFn : ℚ → ℚ`; theorems that need its defining property
  assume it pointwise at exactly the values the code takes roots of;
* the external Cython routines `solve_h` / `solve_r`
  (`gensim.models.nmf_pgd`, not part of this repository's sources) are
  parameters collected in `Externals`;
* an IEEE division by zero that poisons the computation with non-finite
  values is modelled as `Option.none`.
-/

namespace NmfModel

/-- A dense rational matrix, the embedding of a numpy 2-d array. -/
abbrev Mat (m n : ℕ) : Type := Fin m → Fin n → ℚ

/-- The all-zero matrix (`np.zeros`). -/
def zeros (m n : ℕ) : Mat m n := fun _ _ => 0

/-- Matrix transpose (`.T`). -/
def mT {m n : ℕ} (A : Mat m n) : Mat n m := fun i j => A j i

/-- Matrix product (`np.dot`). -/
def mmul {m n p : ℕ} (A : Mat m n) (B : Mat n p) : Mat m p :=
  fun i k => ∑ j, A i j * B j k

/-- Entrywise difference. -/
def msub {m n : ℕ} (A B : Mat m n) : Mat m n := fun i j => A i j - B i j

/-- Entrywise sum. -/
def madd {m n : ℕ} (A B : Mat m n) : Mat m n := fun i j => A i j + B i j

/-- Matrix trace (`np.trace`). -/
def trace {n : ℕ} (A : Mat n n) : ℚ := ∑ i, A i i

/-- Squared Frobenius norm: `np.linalg.norm(A, "fro")` is `sqrt` of this. -/
def frobSq {m n : ℕ} (A : Mat m n) : ℚ := ∑ i, ∑ j, (A i j) ^ 2

/-- Squared L2 norm of column `j`: `np.linalg.norm(A, axis=0)[j]` is
`sqrt` of this. -/
def colSq {m n : ℕ} (A : Mat m n) (j : Fin n) : ℚ := ∑ i, (A i j) ^ 2

/-- Largest entry of a matrix (`v.max()`); `0` for an empty matrix
(numpy raises there; the code only takes the max of a non-empty chunk). -/
def matMax {m n : ℕ} (A : Mat m n) : ℚ :=
  ((List.finRange m).map fun i =>
    ((List.finRange n).map (A i)).foldr max 0).foldr max 0

/-- The model's `v_max` slot: Python `None`, `np.inf`, or a finite float. -/
inductive VMax where
  | unset : VMax
  | inf : VMax
  | fin (q : ℚ) : VMax
  deriving DecidableEq

/-- Python `np.clip(x, 0, c)` where the upper bound `c` is the `v_max` slot
(`None` and `np.inf` impose no upper bound; numpy computes
`min (max x lo) hi`). -/
def clipEntry (c : VMax) (x : ℚ) : ℚ :=
  match c with
  | .unset => max x 0
  | .inf => max x 0
  | .fin q => min (max x 0) q

/-- Entrywise clip of a matrix to `[0, v_max]` (`np.clip(W, 0, v_max)`). -/
def clipW {m n : ℕ} (c : VMax) (W : Mat m n) : Mat m n :=
  fun i j => clipEntry c (W i j)

/-- The `v_max` slot holds no negative finite bound. -/
def capNonneg : VMax → Prop
  | .fin q => 0 ≤ q
  | _ => True

instance : (c : VMax) → Decidable (capNonneg c)
  | .unset => .isTrue trivial
  | .inf => .isTrue trivial
  | .fin q => inferInstanceAs (Decidable (0 ≤ q))

/-- Embeds `Nmf.__transform` (nmf.py lines 327-331): clip the entries of `W` to
`[0, v_max]`, take each column's L2 norm, floor the norms at 1, and
divide each column by its floored norm.  `sqrtFn` stands for the square
root inside `np.linalg.norm(W, axis=0)`. -/
def transform {m n : ℕ} (sqrtFn : ℚ → ℚ) (c : VMax) (W : Mat m n) : Mat m n :=
  fun i j => clipW c W i j / max (sqrtFn (colSq (clipW c W) j)) 1

/-- The `self.v_max` update at the head of `Nmf._solveproj` (lines 335-338):
a non-`None` argument is stored unconditionally; otherwise an unset slot
is filled with `v.max()`. -/
def updateVMaxStored (stored arg : VMax) (derived : ℚ) : VMax :=
  match arg with
  | .unset =>
    match stored with
    | .unset => .fin derived
    | s => s
  | a => a

/-- The iteration of `Nmf._solveproj` (nmf.py lines 354-378), generic in
the loop body.  One call to `body` performs lines 359-369 (the H-step,
the optional R-step, and the division of the accumulated error by `m`),
returning the new `(h, r)` state and `error_`.  `prev` is `_h_r_error`
(`None` before the first iteration); the Python truthiness test
`if not _h_r_error` treats both `None` and `0.0` as unset.  The stop
test of line 375 is `np.abs(_h_r_error - error_) < h_r_stop_condition`.
Returns the final state together with the number of iterations run. -/
def spLoop {St : Type} (body : St → St × ℚ) (cond : ℚ) :
    ℕ → St → Option ℚ → St × ℕ
  | 0, s, _ => (s, 0)
  | fuel + 1, s, prev =>
    let be := body s
    match prev with
    | none =>
      let rest := spLoop body cond fuel be.1 (some be.2)
      (rest.1, rest.2 + 1)
    | some p =>
      if p = 0 then
        let rest := spLoop body cond fuel be.1 (some be.2)
        (rest.1, rest.2 + 1)
      else if |p - be.2| < cond then (be.1, 1)
      else
        let rest := spLoop body cond fuel be.1 (some be.2)
        (rest.1, rest.2 + 1)

/-- The external Cython routines of `gensim.models.nmf_pgd` imported at
the top of nmf.py.  They are not part of this repository's sources, so
they are kept as parameters: `stepH` is `solve_h(h, Wt_v_minus_r, WtW,
kappa)` and `stepR` is `solve_r(r, r_actual, lambda_, v_max)`, each
returning the updated matrix and the error contribution. -/
structure Externals where
  stepH : {n b : ℕ} → Mat n b → Mat n b → Mat n n → ℚ → Mat n b × ℚ
  stepR : {m b : ℕ} → Mat m b → Mat m b → ℚ → VMax → Mat m b × ℚ

/-- One iteration body of `Nmf._solveproj` (nmf.py lines 359-369): the
H-step on `Wᵗ·(v − r)`, the R-step when `use_r` is set, and the division
of the accumulated error by `m` (the feature count). -/
def spBody {feats topics b : ℕ} (E : Externals) (useR : Bool)
    (kappa lam : ℚ) (vm : VMax) (v : Mat feats b) (W : Mat feats topics)
    (wtw : Mat topics topics) :
    Mat topics b × Mat feats b → (Mat topics b × Mat feats b) × ℚ :=
  fun hr =>
    let wtvmr := mmul (mT W) (msub v hr.2)
    let hstep := E.stepH hr.1 wtvmr wtw kappa
    if useR then
      let ract := msub v (mmul W hstep.1)
      let rstep := E.stepR hr.2 ract lam vm
      ((hstep.1, rstep.1), (hstep.2 + rstep.2) / (feats : ℚ))
    else ((hstep.1, hr.2), hstep.2 / (feats : ℚ))

/-- Reindex a matrix along an equality of its column count. -/
def castMat {m b b' : ℕ} (h : b = b') (A : Mat m b) : Mat m b' :=
  fun i j => A i (Fin.cast h.symm j)

/-- Initialization of `h` / `r` in `Nmf._solveproj` (lines 344-348): a
carried matrix is reused only when its shape matches the current batch,
otherwise a zero matrix of the current shape is used. -/
def initHR {m b : ℕ} (x : Option ((bb : ℕ) × Mat m bb)) : Mat m b :=
  match x with
  | none => zeros m b
  | some p => if hb : p.1 = b then castMat hb p.2 else zeros m b

/-- Result of one `Nmf._solveproj` call: the activations, the residuals,
the updated `self.v_max` slot, and the number of inner iterations. -/
structure SPResult (feats topics b : ℕ) where
  h : Mat topics b
  r : Mat feats b
  vmax : VMax
  iters : ℕ

/-- Embeds `Nmf._solveproj` (nmf.py lines 333-380): update the `v_max` slot,
initialize `h` and `r` (zeroing on shape mismatch), precompute `WᵗW`,
and run the projected-gradient loop. -/
def solveproj {feats topics b : ℕ} (E : Externals) (useR : Bool)
    (maxIter : ℕ) (cond kappa lam : ℚ) (stored arg : VMax)
    (v : Mat feats b) (W : Mat feats topics)
    (hIn : Option ((bb : ℕ) × Mat topics bb))
    (rIn : Option ((bb : ℕ) × Mat feats bb)) : SPResult feats topics b :=
  let vm := updateVMaxStored stored arg (matMax v)
  let h0 : Mat topics b := initHR hIn
  let r0 : Mat feats b := initHR rIn
  let wtw := mmul (mT W) W
  let res := spLoop (spBody E useR kappa lam vm v W wtw) cond maxIter (h0, r0) none
  ⟨res.1.1, res.1.2, vm, res.2⟩

/-- The surrogate loss `error()` of `Nmf._solve_w` (lines 295-299):
`0.5·trace(Wᵗ·W·A) − trace(Wᵗ·B)`, where `A`, `B` are the averaged
statistics (the `Nmf.A` / `Nmf.B` property reads). -/
def errFn {f t : ℕ} (W : Mat f t) (Aavg : Mat t t) (Bavg : Mat f t) : ℚ :=
  1 / 2 * trace (mmul (mmul (mT W) W) Aavg) - trace (mmul (mT W) Bavg)

/-- The iteration of `Nmf._solve_w` (lines 306-317): gradient step
`W ← W − eta·(W·A − B)`, projection by `__transform`, then the relative
stopping test `|(error_ − _w_error)/_w_error| < w_stop_condition`.
When `_w_error` is `0` the float quotient is non-finite and the
comparison is false, so the conjunct `we ≠ 0` reproduces the float
behaviour.  On break `_w_error` keeps its previous value (line 317 is
skipped); on a continuing iteration it becomes `error_`. -/
def wIter {f t : ℕ} (sqrtFn : ℚ → ℚ) (vm : VMax) (Aavg : Mat t t)
    (Bavg : Mat f t) (eta cond : ℚ) :
    ℕ → Mat f t → ℚ → Mat f t × ℚ
  | 0, W, we => (W, we)
  | fuel + 1, W, we =>
    let W' := transform sqrtFn vm
      (fun i j => W i j - eta * (mmul W Aavg i j - Bavg i j))
    let e := errFn W' Aavg Bavg
    if we ≠ 0 ∧ |(e - we) / we| < cond then (W', we)
    else wIter sqrtFn vm Aavg Bavg eta cond fuel W' e

/-- Embeds `Nmf._solve_w` (nmf.py lines 294-317).  Line 301 computes
`eta = kappa / np.linalg.norm(A, "fro")` with no guard: when the norm is
zero the IEEE division yields a non-finite `eta` that poisons `W`,
modelled as `none`.  Otherwise the baseline `_w_error` is freshly
computed exactly when the stored value is `None` or `0.0` (Python
truthiness of line 303), and the loop runs.  Returns the updated `W`
and the retained `_w_error`. -/
def solve_w {f t : ℕ} (sqrtFn : ℚ → ℚ) (vm : VMax) (Aavg : Mat t t)
    (Bavg : Mat f t) (kappa cond : ℚ) (maxIter : ℕ) (W : Mat f t)
    (wErr : Option ℚ) : Option (Mat f t × ℚ) :=
  if frobSq Aavg = 0 then none
  else
    let eta := kappa / sqrtFn (frobSq Aavg)
    let w0 := match wErr with
      | none => errFn W Aavg Bavg
      | some p => if p = 0 then errFn W Aavg Bavg else p
    some (wIter sqrtFn vm Aavg Bavg eta cond maxIter W w0)

/-- The mutable model state of an `Nmf` instance that the training loop
touches: the `self._H` history list (whose length is the chunk counter
used by the `A` / `B` property getters), the raw accumulators `self._A`
and `self._B`, the dictionary `self._W`, the carried `self._h` /
`self._r` warm starts, the `self.v_max` slot, and `self._w_error`. -/
structure UState (feats topics : ℕ) where
  Hlist : List ((b : ℕ) × Mat topics b)
  A : Mat topics topics
  B : Mat feats topics
  W : Mat feats topics
  h : Option ((b : ℕ) × Mat topics b)
  r : Option ((b : ℕ) × Mat feats b)
  vmax : VMax
  wErr : Option ℚ

/-- One chunk of the corpus, already converted to a dense batch matrix
`v` of shape features × batch (`matutils.corpus2csc`). -/
structure Chunk (feats : ℕ) where
  b : ℕ
  v : Mat feats b

/-- The configuration options of `Nmf.__init__` that the training loop
reads. -/
structure Params where
  useR : Bool
  kappa : ℚ
  lam : ℚ
  hrMaxIter : ℕ
  hrStop : ℚ
  wMaxIter : ℕ
  wStop : ℚ

/-- The per-chunk body of `Nmf.update` (nmf.py lines 266-275): solve for
`(h, r)` passing `v_max=self.v_max`, append `h` to `self._H`, then run
`self.A += h·hᵗ` and `self.B += (v−r)·hᵗ`.  Because `A` and `B` are
properties whose getter divides the raw accumulator by `len(self._H)`
while the setter stores raw, the augmented assignment stores
`_A/n + h·hᵗ` (with `n` the new history length), not `_A + h·hᵗ`.
Finally `self._solve_w()` runs on the averaged statistics `_A/n`,
`_B/n`; its division-by-zero poisoning propagates as `none`. -/
def processChunk {feats topics : ℕ} (E : Externals) (sqrtFn : ℚ → ℚ)
    (P : Params) (c : Chunk feats) (s : UState feats topics) :
    Option (UState feats topics) :=
  let sp := solveproj E P.useR P.hrMaxIter P.hrStop P.kappa P.lam
    s.vmax s.vmax c.v s.W s.h s.r
  let Hlist' := s.Hlist ++ [⟨c.b, sp.h⟩]
  let nQ : ℚ := (Hlist'.length : ℚ)
  let A' : Mat topics topics := fun i j => s.A i j / nQ + mmul sp.h (mT sp.h) i j
  let B' : Mat feats topics := fun i j =>
    s.B i j / nQ + mmul (msub c.v sp.r) (mT sp.h) i j
  let Aavg : Mat topics topics := fun i j => A' i j / nQ
  let Bavg : Mat feats topics := fun i j => B' i j / nQ
  match solve_w sqrtFn sp.vmax Aavg Bavg P.kappa P.wStop P.wMaxIter s.W s.wErr with
  | none => none
  | some wres =>
    some { Hlist := Hlist', A := A', B := B', W := wres.1,
           h := some ⟨c.b, sp.h⟩, r := some ⟨c.b, sp.r⟩,
           vmax := sp.vmax, wErr := some wres.2 }

/-- The chunk loop of `Nmf.update` over one pass (lines 263-285). -/
def updateChunks {feats topics : ℕ} (E : Externals) (sqrtFn : ℚ → ℚ)
    (P : Params) : List (Chunk feats) → UState feats topics →
    Option (UState feats topics)
  | [], s => some s
  | c :: cs, s =>
    match processChunk E sqrtFn P c s with
    | none => none
    | some s' => updateChunks E sqrtFn P cs s'

/-- Embeds `Nmf.update` (lines 262-285): `passes` full passes over the same
chunk sequence. -/
def update {feats topics : ℕ} (E : Externals) (sqrtFn : ℚ → ℚ)
    (P : Params) (passes : ℕ) (chunks : List (Chunk feats))
    (s : UState feats topics) : Option (UState feats topics) :=
  updateChunks E sqrtFn P (List.flatten (List.replicate passes chunks)) s

/-- The carried residual slot is absent or an all-zero matrix. -/
def rZero {m : ℕ} : Option ((b : ℕ) × Mat m b) → Prop
  | none => True
  | some p => ∀ i j, p.2 i j = 0

instance {m : ℕ} : (o : Option ((b : ℕ) × Mat m b)) → Decidable (rZero o)
  | none => .isTrue trivial
  | some p => inferInstanceAs (Decidable (∀ i j, p.2 i j = 0))

/-- The plain sum of the per-chunk `H·Hᵗ` terms over a history list. -/
def sumHHt {t : ℕ} : List ((b : ℕ) × Mat t b) → Mat t t
  | [] => zeros t t
  | p :: rest => madd (mmul p.2 (mT p.2)) (sumHHt rest)

/-- The effect of `Nmf.get_document_topics` (nmf.py line 214) on the
model's `v_max` slot: the inference solve is invoked as
`self._solveproj(v, self._W, v_max=np.inf)` with no warm start, and the
returned `SPResult.vmax` is what `_solveproj` stored back into
`self.v_max`. -/
def inferVMax {feats topics : ℕ} (E : Externals) (P : Params)
    (s : UState feats topics) (v : Mat feats 1) : VMax :=
  (solveproj E P.useR P.hrMaxIter P.hrStop P.kappa P.lam
    s.vmax VMax.inf v s.W none none).vmax

/-- The exceptions relevant to first-time setup: `StopIteration`, which
Python's `next` raises on an exhausted iterator, and the
`EmptyCorpusError` named by the specification (no such class exists in
nmf.py). -/
inductive PyError where
  | stopIteration : PyError
  | emptyCorpusError : PyError
  deriving DecidableEq

/-- The matrices `Nmf._setup` allocates. -/
structure SetupOut (feats topics : ℕ) where
  W : Mat feats topics
  A : Mat topics topics
  B : Mat feats topics
  deriving DecidableEq

/-- Mean of a document vector (`first_doc.mean()`). -/
def docMean {feats : ℕ} (d : Fin feats → ℚ) : ℚ := (∑ i, d i) / (feats : ℚ)

/-- Embeds `Nmf._setup` (nmf.py lines 230-245): `next(iter(corpus))` raises
`StopIteration` on an empty corpus before anything is allocated;
otherwise `W` is the scaled absolute half-normal draw
`|avg · draw / sqrt(num_topics)|` with
`avg = sqrt(first_doc.mean() / n_features)`, and the accumulators are
zeroed.  `draw` stands for `halfnorm.rvs(...)` and `sqrtFn` for
`np.sqrt`. -/
def setup {feats topics : ℕ} (sqrtFn : ℚ → ℚ) (draw : Mat feats topics)
    (docs : List (Fin feats → ℚ)) : Except PyError (SetupOut feats topics) :=
  match docs with
  | [] => .error .stopIteration
  | d :: _ =>
    .ok { W := fun i j => |sqrtFn (docMean d / (feats : ℚ)) * draw i j / sqrtFn (topics : ℚ)|,
          A := zeros topics topics,
          B := zeros feats topics }

/-- Embeds `Nmf.get_topics` (nmf.py lines 101-105): with `normalize` set,
`Wᵗ` with each row divided by its row sum; otherwise the raw `Wᵗ`. -/
def getTopics {f t : ℕ} (normalize : Bool) (W : Mat f t) : Mat t f :=
  if normalize then fun i j => mT W i j / (∑ k, mT W i k) else mT W

/-! ## Claim C3: behaviour of the dictionary updater on zero-norm statistics -/

/-- Claim C3 (code_bug): the specification says that when the Frobenius
norm of the averaged statistics `A` is zero the update is skipped and
`W` is returned unchanged.  The code has no such guard: line 301
computes `eta = kappa / np.linalg.norm(self.A, "fro")` unconditionally,
so a zero norm divides by zero and poisons `W` with non-finite values
(modelled as `none`).  At the concrete failing input `A = 0` the
embedded `_solve_w` returns `none`, not `some` of an unchanged `W`. -/
theorem c3_zero_norm_divides_by_zero :
    solve_w (fun x => x) (VMax.fin 1) (zeros 1 1) (zeros 1 1) 1 (1/1000) 200
      (zeros 1 1) none = none ∧
    ∀ p : Mat 1 1 × ℚ,
      solve_w (fun x => x) (VMax.fin 1) (zeros 1 1) (zeros 1 1) 1 (1/1000) 200
        (zeros 1 1) none ≠ some p := by
  have h : solve_w (fun x => x) (VMax.fin 1) (zeros 1 1) (zeros 1 1) 1 (1/1000) 200
      (zeros 1 1) none = none := by
    simp [solve_w, frobSq, zeros]
  exact ⟨h, fun p hp => by rw [h] at hp; exact Option.noConfusion hp⟩

/-! ## Claim C4: lifetime of the cached `v_max` -/

/-- External-routine stub used by concrete instances: the H-step returns
the all-ones matrix with unit error, the R-step returns its input
unchanged. -/
def cxE : Externals where
  stepH := fun _ _ _ _ => (fun _ _ => 1, 1)
  stepR := fun r _ _ _ => (r, 0)

/-- Concrete option block used by concrete instances. -/
def cxP : Params where
  useR := false
  kappa := 1
  lam := 1
  hrMaxIter := 1
  hrStop := 1/1000
  wMaxIter := 0
  wStop := 1/1000

/-- Concrete model state with a finite cached `v_max` of 5. -/
def cxS5 : UState 1 1 where
  Hlist := []
  A := zeros 1 1
  B := zeros 1 1
  W := zeros 1 1
  h := none
  r := none
  vmax := .fin 5
  wErr := none

/-- Claim C4 (counterexample): a held-out inference call does not leave
the stored `v_max` unchanged.  With `v_max = 5` cached, the
`get_document_topics` solve (which passes `v_max=np.inf`, line 214)
stores infinity back into the slot, because line 336 of `_solveproj`
assigns any non-`None` argument to `self.v_max`. -/
theorem c4_counterexample :
    inferVMax cxE cxP cxS5 (fun _ _ => 1) ≠ cxS5.vmax ∧
    cxS5.vmax = VMax.fin 5 ∧
    inferVMax cxE cxP cxS5 (fun _ _ => 1) = VMax.inf := by
  refine ⟨?_, rfl, rfl⟩
  intro h
  exact VMax.noConfusion (h.symm.trans rfl)

/-- Claim C4 (amended): the stored `v_max` survives training solves
(which pass the stored value back in), but a held-out inference call
overwrites it with infinity for the rest of the model's lifetime. -/
theorem c4_inference_overwrites_vmax {f t : ℕ} (E : Externals) (P : Params)
    (s : UState f t) (v : Mat f 1) (stored : VMax) (d : ℚ)
    (hs : stored ≠ VMax.unset) :
    inferVMax E P s v = VMax.inf ∧ updateVMaxStored stored stored d = stored := by
  constructor
  · rfl
  · cases stored with
    | unset => exact absurd rfl hs
    | inf => rfl
    | fin q => rfl

/-- Witness for `c4_inference_overwrites_vmax` at a concrete state. -/
theorem c4_witness :
    (VMax.fin 5 ≠ VMax.unset) ∧
    (inferVMax cxE cxP cxS5 (fun _ _ => 1) = VMax.inf ∧
      updateVMaxStored (VMax.fin 5) (VMax.fin 5) 3 = VMax.fin 5) :=
  ⟨fun h => VMax.noConfusion h,
   c4_inference_overwrites_vmax cxE cxP cxS5 (fun _ _ => 1) (VMax.fin 5) 3
     (fun h => VMax.noConfusion h)⟩

/-! ## Claim C5: empty corpus on first use -/

/-- Claim C5 (counterexample): on an empty corpus the first setup does
fail before any matrix allocation, but the exception is the built-in
`StopIteration` escaping from `next(iter(corpus))` (line 232); no
`EmptyCorpusError` class exists anywhere in nmf.py. -/
theorem c5_counterexample :
    setup (fun x => x) (fun _ _ => 1 : Mat 1 1) [] = .error .stopIteration ∧
    (Except.error PyError.stopIteration : Except PyError (SetupOut 1 1)) ≠
      .error .emptyCorpusError := by
  refine ⟨rfl, fun h => ?_⟩
  exact PyError.noConfusion (Except.error.inj h)

/-- Claim C5 (amended): a corpus yielding zero documents makes the first
setup raise `StopIteration` (iterator exhaustion), and it does so before
any model matrix is allocated: the error result carries no `W`, `A` or
`B`. -/
theorem c5_empty_corpus_raises_before_allocation {f t : ℕ}
    (sqrtFn : ℚ → ℚ) (draw : Mat f t) :
    setup sqrtFn draw [] = .error .stopIteration ∧
    ∀ out : SetupOut f t, setup sqrtFn draw [] ≠ .ok out := by
  refine ⟨rfl, fun out h => ?_⟩
  exact Except.noConfusion h

/-! ## Claim C9: the topics query -/

/-- Claim C9 (confirmed): with `normalize` enabled, `get_topics` returns
`Wᵗ` with each row rescaled by its row sum, so every row whose sum is
nonzero sums to exactly 1 (hence within 1e-6); with `normalize`
disabled it returns the raw transpose of `W`. -/
theorem c9_topics_normalization {f t : ℕ} (W : Mat f t)
    (hz : ∀ i : Fin t, (∑ k, mT W i k) ≠ 0) :
    (∀ i : Fin t, (∑ j, getTopics true W i j) = 1) ∧
    getTopics false W = mT W := by
  constructor
  · intro i
    have : (∑ j, getTopics true W i j) = (∑ j, mT W i j) / (∑ k, mT W i k) := by
      simp [getTopics, Finset.sum_div]
    rw [this, div_self (hz i)]
  · simp [getTopics]

/-- Witness for `c9_topics_normalization` on a concrete 1×1 dictionary. -/
theorem c9_witness :
    (∀ i : Fin 1, (∑ k, mT (fun _ _ => (1 : ℚ) : Mat 1 1) i k) ≠ 0) ∧
    ((∀ i : Fin 1, (∑ j, getTopics true (fun _ _ => (1 : ℚ) : Mat 1 1) i j) = 1) ∧
      getTopics false (fun _ _ => (1 : ℚ) : Mat 1 1) =
        mT (fun _ _ => (1 : ℚ) : Mat 1 1)) :=
  ⟨by intro i; simp [mT], c9_topics_normalization _ (by intro i; simp [mT])⟩

/-! ## Claim C10: persistence of the dictionary updater's `_w_error` -/

/-- Claim C10 (confirmed): `_w_error` is initialized from a fresh
`error()` evaluation only when the stored value is unset (`None`) or
falsy (`0.0`) — line 303's `if not self._w_error`.  Otherwise the loop
starts from the retained value, so on every chunk after the first the
first iteration's stopping test compares the new surrogate loss against
the value carried over from the previous `_solve_w` call, not against a
freshly computed baseline. -/
theorem c10_w_error_retained {f t : ℕ} (sqrtFn : ℚ → ℚ) (vm : VMax)
    (Aavg : Mat t t) (Bavg : Mat f t) (kappa cond : ℚ) (M : ℕ)
    (W : Mat f t) (p : ℚ) (hA : frobSq Aavg ≠ 0) (hp : p ≠ 0) :
    solve_w sqrtFn vm Aavg Bavg kappa cond M W (some p)
      = some (wIter sqrtFn vm Aavg Bavg (kappa / sqrtFn (frobSq Aavg)) cond M W p) ∧
    solve_w sqrtFn vm Aavg Bavg kappa cond M W none
      = some (wIter sqrtFn vm Aavg Bavg (kappa / sqrtFn (frobSq Aavg)) cond M W
          (errFn W Aavg Bavg)) ∧
    solve_w sqrtFn vm Aavg Bavg kappa cond M W (some 0)
      = some (wIter sqrtFn vm Aavg Bavg (kappa / sqrtFn (frobSq Aavg)) cond M W
          (errFn W Aavg Bavg)) := by
  refine ⟨?_, ?_, ?_⟩ <;> simp [solve_w, hA, hp]

/-- Witness for `c10_w_error_retained` at a concrete instance. -/
theorem c10_witness :
    (frobSq (fun _ _ => 1 : Mat 1 1) ≠ 0) ∧ ((7 : ℚ) ≠ 0) ∧
    (solve_w (fun x => x) VMax.inf (fun _ _ => 1 : Mat 1 1) (fun _ _ => 1 : Mat 1 1)
        1 (1/1000) 0 (zeros 1 1) (some 7)
      = some (wIter (fun x => x) VMax.inf (fun _ _ => 1) (fun _ _ => 1)
          (1 / (fun x => x) (frobSq (fun _ _ => 1 : Mat 1 1))) (1/1000) 0 (zeros 1 1) 7)) :=
  ⟨by norm_num [frobSq], by norm_num,
   (c10_w_error_retained (fun x => x) VMax.inf (fun _ _ => 1) (fun _ _ => 1)
     1 (1/1000) 0 (zeros 1 1) 7 (by norm_num [frobSq]) (by norm_num)).1⟩

/-! ## Claims C6 / C7: the projection invariants of the dictionary updater -/

lemma colSq_nonneg {m n : ℕ} (A : Mat m n) (j : Fin n) : 0 ≤ colSq A j :=
  Finset.sum_nonneg fun i _ => sq_nonneg (A i j)

/-- Claim C6 (confirmed): after the projection step of the dictionary
updater (clip to `[0, cap]`, floor each column norm at 1, divide each
column by its floored norm) every column of `W` has L2 norm at most 1;
stated on squared norms, which is equivalent since both sides are
non-negative.  `sqrtFn` is assumed to behave as a square root exactly at
the column sums the code takes norms of. -/
theorem c6_column_norms_bounded {m n : ℕ} (sqrtFn : ℚ → ℚ) (c : VMax)
    (W : Mat m n)
    (hs : ∀ j, 0 ≤ sqrtFn (colSq (clipW c W) j) ∧
      sqrtFn (colSq (clipW c W) j) ^ 2 = colSq (clipW c W) j) :
    ∀ j, colSq (transform sqrtFn c W) j ≤ 1 := by
  intro j
  obtain ⟨h0, h2⟩ := hs j
  have hcol : colSq (transform sqrtFn c W) j =
      colSq (clipW c W) j / (max (sqrtFn (colSq (clipW c W) j)) 1) ^ 2 := by
    simp only [colSq, transform, div_pow, ← Finset.sum_div]
  have hd2 : (max (sqrtFn (colSq (clipW c W) j)) 1) ^ 2 =
      max (colSq (clipW c W) j) 1 := by
    rcases le_total (sqrtFn (colSq (clipW c W) j)) 1 with h | h
    · have hs1 : colSq (clipW c W) j ≤ 1 := by nlinarith
      rw [max_eq_right h, max_eq_right hs1, one_pow]
    · have hs1 : 1 ≤ colSq (clipW c W) j := by nlinarith
      rw [max_eq_left h, h2, max_eq_left hs1]
  rw [hcol, hd2, div_le_one (lt_of_lt_of_le one_pos (le_max_right _ 1))]
  exact le_max_left _ 1

/-- Witness for `c6_column_norms_bounded` on a concrete 1×1 dictionary
whose clipped column sum of squares is 4, with root 2. -/
theorem c6_witness :
    (∀ j : Fin 1, 0 ≤ (fun _ : ℚ => (2 : ℚ)) (colSq (clipW VMax.inf (fun _ _ => 2 : Mat 1 1)) j) ∧
      ((fun _ : ℚ => (2 : ℚ)) (colSq (clipW VMax.inf (fun _ _ => 2 : Mat 1 1)) j)) ^ 2 =
        colSq (clipW VMax.inf (fun _ _ => 2 : Mat 1 1)) j) ∧
    ∀ j : Fin 1, colSq (transform (fun _ => 2) VMax.inf (fun _ _ => 2 : Mat 1 1)) j ≤ 1 :=
  ⟨fun j => ⟨by norm_num, by norm_num [colSq, clipW, clipEntry]⟩,
   c6_column_norms_bounded (fun _ => 2) VMax.inf (fun _ _ => 2)
     (fun j => ⟨by norm_num, by norm_num [colSq, clipW, clipEntry]⟩)⟩

lemma clipEntry_nonneg (c : VMax) (hc : capNonneg c) (x : ℚ) :
    0 ≤ clipEntry c x := by
  cases c with
  | unset => exact le_max_right x 0
  | inf => exact le_max_right x 0
  | fin q => exact le_min (le_max_right x 0) hc

lemma transform_entry_nonneg {m n : ℕ} (sqrtFn : ℚ → ℚ) (c : VMax)
    (W : Mat m n) (hc : capNonneg c) (i : Fin m) (j : Fin n) :
    0 ≤ transform sqrtFn c W i j := by
  unfold transform clipW
  exact div_nonneg (clipEntry_nonneg c hc _)
    (le_trans zero_le_one (le_max_right _ 1))

lemma wIter_entries_nonneg {f t : ℕ} (sqrtFn : ℚ → ℚ) (vm : VMax)
    (Aavg : Mat t t) (Bavg : Mat f t) (eta cond : ℚ) (hc : capNonneg vm) :
    ∀ (fuel : ℕ) (W : Mat f t) (we : ℚ) (i : Fin f) (j : Fin t),
      0 ≤ (wIter sqrtFn vm Aavg Bavg eta cond (fuel + 1) W we).1 i j := by
  intro fuel
  induction fuel with
  | zero =>
    intro W we i j
    simp only [wIter]
    split
    · exact transform_entry_nonneg sqrtFn vm _ hc i j
    · simp only [wIter]
      exact transform_entry_nonneg sqrtFn vm _ hc i j
  | succ f2 ih =>
    intro W we i j
    simp only [wIter]
    split
    · exact transform_entry_nonneg sqrtFn vm _ hc i j
    · exact ih _ _ i j

/-- Claim C7 (confirmed): after every dictionary-updater call that runs
at least one iteration (the iteration cap is positive; the default is
200), every entry of the returned `W` is non-negative, provided the
cached cap `v_max` is not a negative finite number (it is either
unset, infinite, or `max(V)` of a non-negative batch / a user-supplied
non-negative bound). -/
theorem c7_w_entries_nonneg {f t : ℕ} (sqrtFn : ℚ → ℚ) (vm : VMax)
    (Aavg : Mat t t) (Bavg : Mat f t) (kappa cond : ℚ) (M : ℕ)
    (W : Mat f t) (wErr : Option ℚ) (hc : capNonneg vm)
    (h : (solve_w sqrtFn vm Aavg Bavg kappa cond (M + 1) W wErr).isSome = true) :
    ∀ i j, 0 ≤ ((solve_w sqrtFn vm Aavg Bavg kappa cond (M + 1) W wErr).get h).1 i j := by
  intro i j
  revert h
  unfold solve_w
  split
  · intro h
    exact absurd h (by simp)
  · intro h
    simp only [Option.get_some]
    exact wIter_entries_nonneg sqrtFn vm Aavg Bavg _ cond hc M W _ i j

lemma c7ex_isSome :
    (solve_w (fun _ => (1 : ℚ)) VMax.inf (fun _ _ => 1 : Mat 1 1)
      (fun _ _ => 1 : Mat 1 1) 1 (1/1000) (0 + 1) (zeros 1 1) none).isSome = true := by
  norm_num [solve_w, frobSq, Fin.sum_univ_one]

/-- Witness for `c7_w_entries_nonneg` at a concrete instance. -/
theorem c7_witness :
    capNonneg VMax.inf ∧
    ∀ i j, 0 ≤ ((solve_w (fun _ => (1 : ℚ)) VMax.inf (fun _ _ => 1 : Mat 1 1)
      (fun _ _ => 1 : Mat 1 1) 1 (1/1000) (0 + 1) (zeros 1 1) none).get c7ex_isSome).1 i j :=
  ⟨trivial,
   c7_w_entries_nonneg (fun _ => 1) VMax.inf (fun _ _ => 1) (fun _ _ => 1)
     1 (1/1000) 0 (zeros 1 1) none trivial c7ex_isSome⟩

/-! ## Claim C2: the activation/residual solver's stopping rule -/

/-- A solver-loop body abstracted to an error stream: the state is the
iteration index and iteration `k` reports error `e k`. -/
def errsBody (e : ℕ → ℚ) : ℕ → ℕ × ℚ := fun k => (k + 1, e k)

/-- Claim C2 (counterexample): with previous error 10 and new error
10 + 1/200 the relative test of the claim fires at tolerance 1/1000
(since 1/200 < 10/1000), yet the embedded `_solveproj` loop does not
stop early: on the error stream `e k = 10 + k/200` it runs all 4
permitted iterations, because line 375 compares
`np.abs(_h_r_error - error_)` against the tolerance with no
multiplication by `|prev_error|`. -/
theorem c2_counterexample :
    |(10 : ℚ) - (10 + 1/200)| < (1/1000) * |(10 : ℚ)| ∧
    (spLoop (errsBody fun k => 10 + (k : ℚ)/200) (1/1000) 4 0 none).2 = 4 := by
  constructor
  · rw [abs_of_nonneg (by norm_num : (0:ℚ) ≤ 10)]
    rw [show (10 : ℚ) - (10 + 1/200) = -(1/200) by norm_num, abs_neg]
    rw [abs_of_nonneg (by norm_num : (0:ℚ) ≤ 1/200)]
    norm_num
  · norm_num [spLoop, errsBody, abs_lt]

lemma spLoop_errs_aux (e : ℕ → ℚ) (cond : ℚ) (hnz : ∀ i, e i ≠ 0) :
    ∀ (f tk : ℕ) (st k : ℕ), 1 ≤ tk →
      spLoop (errsBody e) cond f tk (some (e (tk - 1))) = (st, k) →
      k ≤ f ∧
      (k < f → 1 ≤ k ∧ |e (tk + k - 2) - e (tk + k - 1)| < cond) ∧
      (∀ j, 1 ≤ j → j < k → ¬ |e (tk + j - 2) - e (tk + j - 1)| < cond) := by
  intro f
  induction f with
  | zero =>
    intro tk st k htk hrun
    simp only [spLoop] at hrun
    obtain ⟨-, hk⟩ := Prod.mk.injEq .. ▸ hrun
    refine ⟨by omega, by omega, by omega⟩
  | succ f2 ih =>
    intro tk st k htk hrun
    simp only [spLoop, errsBody] at hrun
    rw [if_neg (hnz (tk - 1))] at hrun
    by_cases hstop : |e (tk - 1) - e tk| < cond
    · rw [if_pos hstop] at hrun
      obtain ⟨-, hk⟩ := Prod.mk.injEq .. ▸ hrun
      subst hk
      refine ⟨by omega, fun _ => ⟨le_refl 1, ?_⟩, fun j hj1 hj2 => by omega⟩
      have h2 : tk + 1 - 2 = tk - 1 := by omega
      have h1 : tk + 1 - 1 = tk := by omega
      rw [h2, h1]
      exact hstop
    · rw [if_neg hstop] at hrun
      obtain ⟨-, hk⟩ := Prod.mk.injEq .. ▸ hrun
      have hrec : spLoop (errsBody e) cond f2 (tk + 1) (some (e ((tk + 1) - 1)))
          = ((spLoop (errsBody e) cond f2 (tk + 1) (some (e tk))).1,
             (spLoop (errsBody e) cond f2 (tk + 1) (some (e tk))).2) := by
        rw [Nat.add_sub_cancel]
      obtain ⟨ih1, ih2, ih3⟩ := ih (tk + 1)
        (spLoop (errsBody e) cond f2 (tk + 1) (some (e tk))).1
        (spLoop (errsBody e) cond f2 (tk + 1) (some (e tk))).2
        (by omega) hrec
      subst hk
      refine ⟨by omega, fun hlt => ?_, fun j hj1 hj2 => ?_⟩
      · obtain ⟨ihk, ihe⟩ := ih2 (by omega)
        refine ⟨by omega, ?_⟩
        have hidx2 : tk + ((spLoop (errsBody e) cond f2 (tk + 1) (some (e tk))).2 + 1) - 2
            = tk + 1 + (spLoop (errsBody e) cond f2 (tk + 1) (some (e tk))).2 - 2 := by
          omega
        have hidx1 : tk + ((spLoop (errsBody e) cond f2 (tk + 1) (some (e tk))).2 + 1) - 1
            = tk + 1 + (spLoop (errsBody e) cond f2 (tk + 1) (some (e tk))).2 - 1 := by
          omega
        rw [hidx2, hidx1]
        exact ihe
      · rcases Nat.lt_or_ge j 2 with hj | hj
        · have hj1' : j = 1 := by omega
          subst hj1'
          have h2 : tk + 1 - 2 = tk - 1 := by omega
          have h1 : tk + 1 - 1 = tk := by omega
          rw [h2, h1]
          exact hstop
        · have := ih3 (j - 1) (by omega) (by omega)
          have hidx2 : tk + 1 + (j - 1) - 2 = tk + j - 2 := by omega
          have hidx1 : tk + 1 + (j - 1) - 1 = tk + j - 1 := by omega
          rw [hidx2, hidx1] at this
          exact this

/-- Claim C2 (amended): the solver's early stop uses the absolute test
`|prev_error − error| < h_r_stop_condition` — not the relative test the
specification states — skipped while the previous error is unset (and
also, by Python truthiness, if it is exactly zero); the loop never runs
more than the iteration cap.  Formally, on any all-nonzero error
stream, the iteration count is capped, an early stop happens only right
after the first index at which the absolute test fires, and the test
fails at every earlier comparison. -/
theorem c2_stop_test_is_absolute (e : ℕ → ℚ) (cond : ℚ) (M : ℕ)
    (hnz : ∀ i, e i ≠ 0) :
    (spLoop (errsBody e) cond M 0 none).2 ≤ M ∧
    ((spLoop (errsBody e) cond M 0 none).2 < M →
      2 ≤ (spLoop (errsBody e) cond M 0 none).2 ∧
      |e ((spLoop (errsBody e) cond M 0 none).2 - 2) -
        e ((spLoop (errsBody e) cond M 0 none).2 - 1)| < cond) ∧
    (∀ j, 2 ≤ j → j < (spLoop (errsBody e) cond M 0 none).2 →
      ¬ |e (j - 2) - e (j - 1)| < cond) := by
  cases M with
  | zero =>
    refine ⟨by simp [spLoop], by simp [spLoop], ?_⟩
    intro j hj1 hj2
    simp [spLoop] at hj2
  | succ f2 =>
    have hunfold : (spLoop (errsBody e) cond (f2 + 1) 0 none).2
        = (spLoop (errsBody e) cond f2 1 (some (e 0))).2 + 1 := by
      simp only [spLoop, errsBody]
    have hrec : spLoop (errsBody e) cond f2 1 (some (e (1 - 1)))
        = ((spLoop (errsBody e) cond f2 1 (some (e 0))).1,
           (spLoop (errsBody e) cond f2 1 (some (e 0))).2) := by
      norm_num
    obtain ⟨ih1, ih2, ih3⟩ := spLoop_errs_aux e cond hnz f2 1
      (spLoop (errsBody e) cond f2 1 (some (e 0))).1
      (spLoop (errsBody e) cond f2 1 (some (e 0))).2
      (le_refl 1) hrec
    rw [hunfold]
    refine ⟨by omega, fun hlt => ?_, fun j hj1 hj2 => ?_⟩
    · obtain ⟨ihk, ihe⟩ := ih2 (by omega)
      refine ⟨by omega, ?_⟩
      have hidx2 : (spLoop (errsBody e) cond f2 1 (some (e 0))).2 + 1 - 2
          = 1 + (spLoop (errsBody e) cond f2 1 (some (e 0))).2 - 2 := by
        omega
      have hidx1 : (spLoop (errsBody e) cond f2 1 (some (e 0))).2 + 1 - 1
          = 1 + (spLoop (errsBody e) cond f2 1 (some (e 0))).2 - 1 := by
        omega
      rw [hidx2, hidx1]
      exact ihe
    · have := ih3 (j - 1) (by omega) (by omega)
      have hidx2 : 1 + (j - 1) - 2 = j - 2 := by omega
      have hidx1 : 1 + (j - 1) - 1 = j - 1 := by omega
      rw [hidx2, hidx1] at this
      exact this

/-- Witness for `c2_stop_test_is_absolute` on the constant error stream
10 with tolerance 1/1000 and cap 5. -/
theorem c2_witness :
    (∀ i : ℕ, (fun _ : ℕ => (10 : ℚ)) i ≠ 0) ∧
    ((spLoop (errsBody fun _ => (10 : ℚ)) (1/1000) 5 0 none).2 ≤ 5 ∧
      ((spLoop (errsBody fun _ => (10 : ℚ)) (1/1000) 5 0 none).2 < 5 →
        2 ≤ (spLoop (errsBody fun _ => (10 : ℚ)) (1/1000) 5 0 none).2 ∧
        |(fun _ : ℕ => (10 : ℚ)) ((spLoop (errsBody fun _ => (10 : ℚ)) (1/1000) 5 0 none).2 - 2) -
          (fun _ : ℕ => (10 : ℚ)) ((spLoop (errsBody fun _ => (10 : ℚ)) (1/1000) 5 0 none).2 - 1)| < 1/1000) ∧
      (∀ j, 2 ≤ j → j < (spLoop (errsBody fun _ => (10 : ℚ)) (1/1000) 5 0 none).2 →
        ¬ |(fun _ : ℕ => (10 : ℚ)) (j - 2) - (fun _ : ℕ => (10 : ℚ)) (j - 1)| < 1/1000)) :=
  ⟨fun _ => by norm_num,
   c2_stop_test_is_absolute (fun _ => (10 : ℚ)) (1/1000) 5 (fun _ => by norm_num)⟩

/-! ## Claim C8: `use_r=False` keeps the residuals at zero -/

lemma spBody_noUseR_keeps_r {feats topics b : ℕ} (E : Externals)
    (kappa lam : ℚ) (vm : VMax) (v : Mat feats b) (W : Mat feats topics)
    (wtw : Mat topics topics) (hr : Mat topics b × Mat feats b) :
    (spBody E false kappa lam vm v W wtw hr).1.2 = hr.2 := rfl

lemma spLoop_preserves {St : Type} (P : St → Prop) (body : St → St × ℚ)
    (cond : ℚ) (hb : ∀ s, P s → P (body s).1) :
    ∀ (f : ℕ) (s : St) (prev : Option ℚ), P s → P (spLoop body cond f s prev).1 := by
  intro f
  induction f with
  | zero =>
    intro s prev hs
    simpa [spLoop] using hs
  | succ f2 ih =>
    intro s prev hs
    simp only [spLoop]
    split
    · exact ih _ _ (hb s hs)
    · split
      · exact ih _ _ (hb s hs)
      · split
        · exact hb s hs
        · exact ih _ _ (hb s hs)

lemma initHR_of_rZero {m b : ℕ} (x : Option ((bb : ℕ) × Mat m bb))
    (hx : rZero x) : ∀ (i : Fin m) (j : Fin b), initHR x i j = 0 := by
  intro i j
  cases x with
  | none => rfl
  | some p =>
    simp only [initHR]
    split
    · rename_i hb
      exact hx i (Fin.cast hb.symm j)
    · rfl

lemma solveproj_noUseR_r_zero {feats topics b : ℕ} (E : Externals)
    (maxIter : ℕ) (cond kappa lam : ℚ) (stored arg : VMax) (v : Mat feats b)
    (W : Mat feats topics) (hIn : Option ((bb : ℕ) × Mat topics bb))
    (rIn : Option ((bb : ℕ) × Mat feats bb)) (hz : rZero rIn) :
    ∀ i j, (solveproj E false maxIter cond kappa lam stored arg v W hIn rIn).r i j = 0 := by
  intro i j
  exact spLoop_preserves (fun st : Mat topics b × Mat feats b => ∀ i j, st.2 i j = 0)
    (spBody E false kappa lam (updateVMaxStored stored arg (matMax v)) v W (mmul (mT W) W))
    cond
    (fun st hst => by
      intro i2 j2
      rw [spBody_noUseR_keeps_r]
      exact hst i2 j2)
    maxIter (initHR hIn, initHR rIn) none
    (fun i2 j2 => initHR_of_rZero rIn hz i2 j2) i j

lemma processChunk_rZero {f t : ℕ} (E : Externals) (sqrtFn : ℚ → ℚ)
    (P : Params) (c : Chunk f) (s s' : UState f t) (hu : P.useR = false)
    (hz : rZero s.r) (h : processChunk E sqrtFn P c s = some s') :
    rZero s'.r := by
  unfold processChunk at h
  rw [hu] at h
  dsimp only at h
  split at h
  · exact absurd h (by simp)
  · injection h with h'
    subst h'
    intro i j
    exact solveproj_noUseR_r_zero E P.hrMaxIter P.hrStop P.kappa P.lam
      s.vmax s.vmax c.v s.W s.h s.r hz i j

lemma updateChunks_rZero {f t : ℕ} (E : Externals) (sqrtFn : ℚ → ℚ)
    (P : Params) (hu : P.useR = false) :
    ∀ (cs : List (Chunk f)) (s s' : UState f t), rZero s.r →
      updateChunks E sqrtFn P cs s = some s' → rZero s'.r := by
  intro cs
  induction cs with
  | nil =>
    intro s s' hz h
    simp only [updateChunks] at h
    injection h with h'
    subst h'
    exact hz
  | cons c cs2 ih =>
    intro s s' hz h
    simp only [updateChunks] at h
    split at h
    · exact absurd h (by simp)
    · rename_i s1 hs1
      exact ih s1 s' (processChunk_rZero E sqrtFn P c s s1 hu hz hs1) h

/-- Claim C8 (confirmed): in a run configured with `use_r=False` the
residual slot stays the zero matrix of the current batch shape after
every chunk's solve, for any number of chunks and passes: the inner
loop never touches `r` (lines 365-367 are guarded by `use_r`), so every
`_solveproj` call returns its zero initialization or the zero carried
matrix, and the carried slot stays all-zero through the whole `update`
run. -/
theorem c8_residuals_stay_zero {f t : ℕ} (E : Externals) (sqrtFn : ℚ → ℚ)
    (P : Params) (passes : ℕ) (chunks : List (Chunk f)) (s : UState f t)
    (hu : P.useR = false) (hz : rZero s.r)
    (h : (update E sqrtFn P passes chunks s).isSome = true) :
    rZero ((update E sqrtFn P passes chunks s).get h).r :=
  updateChunks_rZero E sqrtFn P hu _ s _ hz (Option.some_get h).symm

/-! ## Claim C1: the sufficient-statistics accumulator -/

/-- A one-document chunk holding the constant count 1. -/
def cxChunk : Chunk 1 := ⟨1, fun _ _ => 1⟩

/-- A concrete two-chunk training run. -/
def cxRun : Option (UState 1 1) :=
  updateChunks cxE (fun x => x) cxP [cxChunk, cxChunk] cxS5

/-- The raw accumulator `self._A` entry after the two-chunk run. -/
def cxA : ℚ := match cxRun with | some s => s.A 0 0 | none => 37

/-- The plain sum of the per-chunk `H·Hᵗ` entries of the same run. -/
def cxSum : ℚ := match cxRun with | some s => sumHHt s.Hlist 0 0 | none => 37

/-- Claim C1 (counterexample): after two chunks that both produce the
activation `H = [1]`, the stored sum `_A` is 3/2 while the plain sum of
the per-chunk `H·Hᵗ` terms is 2.  `self.A += np.dot(h, h.T)` reads the
`A` property (which divides the raw accumulator by `len(self._H)`) and
writes the raw slot, so each chunk stores `_A/n + H·Hᵗ` instead of
adding to a plain running sum. -/
theorem c1_counterexample : cxA = 3/2 ∧ cxSum = 2 ∧ cxA ≠ cxSum := by
  have hA : cxA = 3/2 := by
    norm_num [cxA, cxRun, updateChunks, processChunk, solveproj, solve_w, wIter,
      spLoop, spBody, initHR, updateVMaxStored, errFn, trace, frobSq, mmul, mT,
      msub, zeros, castMat, cxE, cxP, cxS5, cxChunk, Fin.sum_univ_one]
  have hS : cxSum = 2 := by
    norm_num [cxSum, cxRun, updateChunks, processChunk, solveproj, solve_w, wIter,
      spLoop, spBody, initHR, updateVMaxStored, errFn, trace, frobSq, mmul, mT,
      msub, madd, zeros, castMat, cxE, cxP, cxS5, cxChunk, Fin.sum_univ_one, sumHHt]
  refine ⟨hA, hS, ?_⟩
  rw [hA, hS]
  norm_num

/-- Claim C1 (amended): each processed chunk appends `H` to the history
(incrementing the chunk counter `len(self._H)`), and updates the raw
accumulators by the damped rule `_A ← _A/n + H·Hᵗ` and
`_B ← _B/n + (V−R)·Hᵗ` with `n` the new counter value — a consequence
of `self.A += ...` reading the averaging property getter and writing
the raw setter — rather than by plain sum accumulation; the average
accessors divide the raw slots by `n`. -/
theorem c1_accumulator_recurrence {f t : ℕ} (E : Externals) (sqrtFn : ℚ → ℚ)
    (P : Params) (c : Chunk f) (s : UState f t)
    (h : (processChunk E sqrtFn P c s).isSome = true) :
    ((processChunk E sqrtFn P c s).get h).Hlist
      = s.Hlist ++ [⟨c.b, (solveproj E P.useR P.hrMaxIter P.hrStop P.kappa P.lam
          s.vmax s.vmax c.v s.W s.h s.r).h⟩] ∧
    ((processChunk E sqrtFn P c s).get h).Hlist.length = s.Hlist.length + 1 ∧
    (∀ i j, ((processChunk E sqrtFn P c s).get h).A i j
      = s.A i j / ((s.Hlist.length + 1 : ℕ) : ℚ)
        + mmul (solveproj E P.useR P.hrMaxIter P.hrStop P.kappa P.lam
            s.vmax s.vmax c.v s.W s.h s.r).h
          (mT (solveproj E P.useR P.hrMaxIter P.hrStop P.kappa P.lam
            s.vmax s.vmax c.v s.W s.h s.r).h) i j) ∧
    (∀ i j, ((processChunk E sqrtFn P c s).get h).B i j
      = s.B i j / ((s.Hlist.length + 1 : ℕ) : ℚ)
        + mmul (msub c.v (solveproj E P.useR P.hrMaxIter P.hrStop P.kappa P.lam
            s.vmax s.vmax c.v s.W s.h s.r).r)
          (mT (solveproj E P.useR P.hrMaxIter P.hrStop P.kappa P.lam
            s.vmax s.vmax c.v s.W s.h s.r).h) i j) := by
  revert h
  unfold processChunk
  dsimp only
  split
  · intro h
    exact absurd h (by simp)
  · intro h
    simp

lemma c1ex_isSome :
    (processChunk cxE (fun x => x) cxP cxChunk cxS5).isSome = true := by
  norm_num [processChunk, solveproj, solve_w, wIter,
    spLoop, spBody, initHR, updateVMaxStored, errFn, trace, frobSq, mmul, mT,
    msub, zeros, castMat, cxE, cxP, cxS5, cxChunk, Fin.sum_univ_one]

/-- Witness for `c1_accumulator_recurrence` at a concrete chunk. -/
theorem c1_witness :
    (processChunk cxE (fun x => x) cxP cxChunk cxS5).isSome = true ∧
    ((processChunk cxE (fun x => x) cxP cxChunk cxS5).get c1ex_isSome).Hlist.length
      = cxS5.Hlist.length + 1 :=
  ⟨c1ex_isSome,
   (c1_accumulator_recurrence cxE (fun x => x) cxP cxChunk cxS5 c1ex_isSome).2.1⟩

lemma c8ex_isSome :
    (update cxE (fun x => x) cxP 2 [cxChunk] cxS5).isSome = true := by
  norm_num [update, List.replicate, updateChunks, processChunk, solveproj,
    solve_w, wIter, spLoop, spBody, initHR, updateVMaxStored, errFn, trace,
    frobSq, mmul, mT, msub, zeros, castMat, cxE, cxP, cxS5, cxChunk,
    Fin.sum_univ_one]

/-- Witness for `c8_residuals_stay_zero` on a concrete two-pass run. -/
theorem c8_witness :
    cxP.useR = false ∧ rZero cxS5.r ∧
    rZero ((update cxE (fun x => x) cxP 2 [cxChunk] cxS5).get c8ex_isSome).r :=
  ⟨rfl, trivial,
   c8_residuals_stay_zero cxE (fun x => x) cxP 2 [cxChunk] cxS5 rfl trivial c8ex_isSome⟩

end NmfModel
